import Mathlib

/-!
Verification of the `mach` build tool's target model and incremental build
engine, as a shallow embedding of the Python sources in Lean 4.

The embedding follows the source files:
  * `src/target/__init__.py`   (base `Target` class)
  * `src/target/cc_targets.py` (native C/C++ targets, staleness engine)
  * `src/config.py`            (manifest handling, target graph, lookup)

Filesystem state is modelled explicitly as a map from paths to an optional
pair of a modification time and the file's lines; machine-level details
(actual clock values) are abstracted to natural numbers, which is faithful
because `datetime.datetime.fromtimestamp` is strictly monotone.
-/

namespace Mach

/-- A JSON-ish manifest value: either a string or a list of strings.
Manifest records in `mach.json` only use these two shapes for the fields
the target constructors consume. -/
inductive JVal where
  | str (s : String)
  | list (xs : List String)
deriving DecidableEq, Repr

/-- A raw target-declaration record: an association list modelling the
Python dict parsed from a manifest entry.  Keys are consumed by `pop`. -/
abbrev Record := List (String × JVal)

/-- `dict.pop(key, default?)`: returns the value of the first binding of
`key` (if any) and the record with that binding removed, mirroring the
destructive `pop` used by the target constructors. -/
def Record.pop (r : Record) (key : String) : Option JVal × Record :=
  match r with
  | [] => (none, [])
  | (k, v) :: rest =>
    if k = key then (some v, rest)
    else
      let (res, rest') := Record.pop rest key
      (res, (k, v) :: rest')

/-- First binding of a key in a record (the value `pop` would return). -/
def Record.lookupKey (r : Record) (key : String) : Option JVal :=
  match r with
  | [] => none
  | (k, v) :: rest => if k = key then some v else Record.lookupKey rest key

/-- Coerce a popped manifest value to a list of strings with a default,
as the constructors do for `srcs`, `ccflags`, etc. -/
def JVal.asList (v : Option JVal) (d : List String) : List String :=
  match v with
  | some (.list xs) => xs
  | _ => d

/-- Coerce a popped manifest value to a string with a default, as the
constructors do for `cc` and `cxx`. -/
def JVal.asStr (v : Option JVal) (d : String) : String :=
  match v with
  | some (.str s) => s
  | _ => d

/-- Python's `sep.join(elements)`: the elements interleaved with the
separator (empty when the list is empty). -/
def strJoin (sep : String) : List String → String
  | [] => ""
  | x :: xs => xs.foldl (fun acc element => acc ++ sep ++ element) x

/-- `str.startswith`, computed on the character lists. -/
def strStartsWith (s pre : String) : Bool := pre.data.isPrefixOf s.data

/-- `str.endswith`, computed on the character lists. -/
def strEndsWith (s post : String) : Bool := post.data.reverse.isPrefixOf s.data.reverse

/-- `str.find(c) != -1` for a single character. -/
def strContainsChar (s : String) (c : Char) : Bool := s.data.contains c

/-- `str.strip()`: drop whitespace from both ends. -/
def trimStr (s : String) : String :=
  String.mk ((s.data.dropWhile Char.isWhitespace).reverse.dropWhile Char.isWhitespace).reverse

/-- Split a character list at every character satisfying `p`, keeping
empty pieces (as Python `str.split(sep)` does). -/
def splitCharsAux (p : Char → Bool) : List Char → List Char → List (List Char)
  | [], acc => [acc.reverse]
  | c :: cs, acc =>
    if p c then acc.reverse :: splitCharsAux p cs []
    else splitCharsAux p cs (c :: acc)

/-- Split a string at every character satisfying `p`. -/
def splitChars (p : Char → Bool) (s : String) : List String :=
  (splitCharsAux p s.data []).map String.mk

/-- Remove every occurrence of a (non-empty) pattern, scanning left to
right: `str.replace(pattern, '')`.  The fuel argument makes the recursion
structural; `l.length` is always enough. -/
def removeAllAux (pat : List Char) : Nat → List Char → List Char
  | _, [] => []
  | 0, l => l
  | fuel + 1, c :: cs =>
    if pat.isPrefixOf (c :: cs) then removeAllAux pat fuel ((c :: cs).drop pat.length)
    else c :: removeAllAux pat fuel cs

/-- `s.replace(pat, '')`. -/
def removeAllStr (s pat : String) : String :=
  String.mk (removeAllAux pat.data s.data.length s.data)

/-! ### POSIX path primitives (`os.path`) used by the source -/

/-- `os.path.join(a, b)` for two POSIX path components. -/
def joinPath (a b : String) : String :=
  if strStartsWith b "/" then b
  else if a = "" ∨ strEndsWith a "/" then a ++ b
  else a ++ "/" ++ b

/-- `os.path.split(p)`: split `p` at the final slash; the head keeps no
trailing slashes unless it consists only of slashes. -/
def osSplit (p : String) : String × String :=
  let r := p.data.reverse
  let revTail := r.takeWhile (fun c => c ≠ '/')
  let rest := r.dropWhile (fun c => c ≠ '/')
  let tail := String.mk revTail.reverse
  let head :=
    if rest.all (fun c => c = '/') then String.mk rest.reverse
    else String.mk (rest.dropWhile (fun c => c = '/')).reverse
  (head, tail)

/-- `os.path.dirname`. -/
def dirname (p : String) : String := (osSplit p).1

/-- `os.path.basename`. -/
def basename (p : String) : String := (osSplit p).2

/-- `os.path.splitext(p)`: split off the extension at the final dot of the
basename, provided some earlier character of the basename is not a dot. -/
def splitext (p : String) : String × String :=
  let r := p.data.reverse
  let revBase := r.takeWhile (fun c => c ≠ '/')
  let revDirPart := r.dropWhile (fun c => c ≠ '/')
  let afterDot := revBase.takeWhile (fun c => c ≠ '.')
  let fromDot := revBase.dropWhile (fun c => c ≠ '.')
  match fromDot with
  | [] => (p, "")
  | _ :: beforeDotRev =>
    if beforeDotRev.any (fun c => c ≠ '.') then
      (String.mk (revDirPart.reverse ++ beforeDotRev.reverse),
       String.mk ('.' :: afterDot.reverse))
    else (p, "")

/-- `os.path.normpath` for POSIX paths. -/
def normpath (p : String) : String :=
  if p = "" then "." else
  let initSlashes : Nat :=
    if strStartsWith p "//" ∧ ¬ strStartsWith p "///" then 2
    else if strStartsWith p "/" then 1 else 0
  let comps := splitChars (fun c => c == '/') p
  let newComps := comps.foldl (fun acc comp =>
    if comp = "" ∨ comp = "." then acc
    else if comp ≠ ".." ∨ (initSlashes = 0 ∧ acc = []) ∨ acc.getLast? = some ".." then
      acc ++ [comp]
    else if acc ≠ [] then acc.dropLast
    else acc) []
  let res := String.mk (List.replicate initSlashes '/') ++ Mach.strJoin "/" newComps
  if res = "" then "." else res

/-! ### Filesystem model -/

/-- The filesystem: each path either does not exist (`none`) or carries a
modification time and the file's lines.  `os.path.exists`,
`os.path.getmtime` and reading a file are all views of this map.
Modification times are naturals; `datetime.fromtimestamp` is strictly
monotone, so comparisons of datetimes coincide with comparisons of raw
modification times. -/
structure FS where
  files : String → Option (Nat × List String)

/-- `os.path.exists`. -/
def FS.pathExists (fs : FS) (p : String) : Bool := (fs.files p).isSome

/-- `os.path.getmtime`, defaulting to `0` (the source only evaluates it on
paths whose existence was already checked). -/
def FS.mtime (fs : FS) (p : String) : Nat :=
  match fs.files p with
  | some (t, _) => t
  | none => 0

/-! ### Staleness engine (`src/target/cc_targets.py`) -/

/-- `_get_object_file_path(source)`: the object file associated to a
source, relocated under `out/intermeditates` (spelling as in the source). -/
def getObjectFilePath (source : String) : String :=
  let srcDir := dirname source
  let srcName := (splitext (basename source)).1
  let objName := srcName ++ ".o"
  joinPath (joinPath (joinPath "out" "intermeditates") srcDir) objName

/-- `_needs_rebuild(target, dependencies)` with an already materialized
dependency list: `True` if the output is missing, otherwise `True` iff some
dependency is missing or strictly newer than the output. -/
def needsRebuild (fs : FS) (target : String) (dependencies : List String) : Bool :=
  match fs.files target with
  | none => true
  | some (tmtime, _) =>
    dependencies.any (fun dependency =>
      match fs.files dependency with
      | none => true
      | some (dmtime, _) => tmtime < dmtime)

/-- `_needs_rebuild(target, dependencies)` as invoked with the lazy
generator `_parse_deps(object_file)`: the generator body (and hence the
`open` of the sidecar file) only runs when the dependency sequence is
iterated, which happens after the existence check on the output.  The
dependency sequence is therefore a thunk that may fail. -/
def needsRebuildLazy (fs : FS) (target : String)
    (dependencies : Unit → Except String (List String)) : Except String Bool :=
  match fs.files target with
  | none => .ok true
  | some (tmtime, _) =>
    match dependencies () with
    | .error e => .error e
    | .ok deps => .ok (deps.any (fun dependency =>
        match fs.files dependency with
        | none => true
        | some (dmtime, _) => tmtime < dmtime))

/-- One line of a sidecar dependency file, parsed as in `_parse_deps`:
strip every occurrence of the `"<object>: "` marker and of backslashes,
trim, then split on whitespace. -/
def parseDepsLine (objectFile line : String) : List String :=
  let line := removeAllStr line (objectFile ++ ": ")
  let line := removeAllStr line "\\"
  let line := trimStr line
  (splitChars Char.isWhitespace line).filter (fun t => t ≠ "")

/-- `_parse_deps(object_file)`, materialized: read the sidecar `.d` file
next to the object file and yield every dependency token; opening a
missing sidecar file is an error (Python raises `FileNotFoundError`). -/
def parseDeps (fs : FS) (objectFile : String) : Except String (List String) :=
  let depsFilePath := (splitext objectFile).1 ++ ".d"
  match fs.files depsFilePath with
  | none => .error ("FileNotFoundError: " ++ depsFilePath)
  | some (_, fileLines) => .ok (fileLines.map (parseDepsLine objectFile)).flatten

/-- The staleness determination performed by `_build_translation_unit`:
`_needs_rebuild(object_file, _parse_deps(object_file))`, with the
generator's laziness made explicit. -/
def buildTranslationUnitStaleness (fs : FS) (source : String) : Except String Bool :=
  let objectFile := getObjectFilePath source
  needsRebuildLazy fs objectFile (fun _ => parseDeps fs objectFile)

/-! ### Base target (`src/target/__init__.py`) -/

/-- The loop of `Target._find_namespace`: repeatedly `os.path.split` the
path, collecting the folder components, until the head becomes empty.
Fuel bounds the iteration; `path.length + 1` is always enough for the
relative paths produced by the manifest scan, since each split strictly
shortens such a path. -/
def findNamespaceLoop : Nat → String → List String → List String
  | 0, _, components => components
  | fuel + 1, path, components =>
    let (head, folder) := osSplit path
    let components := components ++ [folder]
    if head = "" then components
    else findNamespaceLoop fuel head components

/-- `Target._find_namespace`: join the directory's components with `'.'`,
root to leaf, eliding the current-directory marker `"."`. -/
def findNamespace (directory : String) : String :=
  let components := findNamespaceLoop (directory.length + 1) directory []
  strJoin "." (components.reverse.filter (fun element => element ≠ "."))

/-- The fields set up by `Target.__init__`.  The Python attribute
`namespace` is a Lean keyword, so it is named `nspace` here. -/
structure BaseTarget where
  name : String
  typeTag : Option JVal
  directory : String
  nspace : String
deriving DecidableEq, Repr

/-- `Target.__init__`: pop the `target` key as the name, failing when it is
absent (`target has no name!`), when it is not a string (Python raises an
`AttributeError` on `name.find`), or when the name contains `':'`; then
pop `type`, record the directory, and derive the namespace.  Returns the
base fields together with the record after the consumed keys are removed. -/
def targetInit (record : Record) (directory : String) :
    Except String (BaseTarget × Record) :=
  let (nameV, record) := Record.pop record "target"
  match nameV with
  | none => .error "target has no name!"
  | some (.list _) => .error "AttributeError: name is not a string"
  | some (.str name) =>
    if strContainsChar name ':' then .error "target names cannot contain \":\""
    else
      let (typeV, record) := Record.pop record "type"
      .ok ({ name := name, typeTag := typeV, directory := directory,
             nspace := findNamespace directory }, record)

/-- `Target.get_fully_qualified_name`. -/
def getFullyQualifiedName (t : BaseTarget) : String := t.nspace ++ ":" ++ t.name

/-! ### Native targets (`src/target/cc_targets.py`) -/

/-- `CcTarget.DEFAULT_CC`. -/
def DEFAULT_CC : String := "gcc"

/-- `CcTarget.DEFAULT_CXX`. -/
def DEFAULT_CXX : String := "g++"

/-- The fields of a constructed `CcTarget`. -/
structure CcTarget where
  base : BaseTarget
  sources : List String
  cc_flags : List String
  cxx_flags : List String
  ld_flags : List String
  include_dirs : List String
  cxx : String
  cc : String
deriving DecidableEq, Repr

/-- `CcTarget.__init__`: pop `srcs` and normalize each source against the
manifest directory, failing when empty; pop the flag lists, `include`,
`cxx` and `cc`; then the source reassigns `include_dirs` from a *second*
pop of `srcs` (already consumed), so the include directories computed from
the `include` key are discarded and `include_dirs` ends up empty whenever
the record held a single `srcs` binding. -/
def ccTargetInit (record : Record) (directory : String) :
    Except String (CcTarget × Record) := do
  let (base, record) ← targetInit record directory
  let (srcsV, record) := Record.pop record "srcs"
  let sources := (JVal.asList srcsV []).map (fun src => normpath (joinPath directory src))
  if sources.length = 0 then
    throw ("Target " ++ base.name ++ " has no sources.")
  else
    let (ccflagsV, record) := Record.pop record "ccflags"
    let cc_flags := JVal.asList ccflagsV []
    let (cxxflagsV, record) := Record.pop record "cxxflags"
    let cxx_flags := JVal.asList cxxflagsV []
    let (ldflagsV, record) := Record.pop record "ldflags"
    let ld_flags := JVal.asList ldflagsV []
    let (includeV, record) := Record.pop record "include"
    let _includeDirsFirst := (JVal.asList includeV []).map (fun src => joinPath directory src)
    let (cxxV, record) := Record.pop record "cxx"
    let cxx := JVal.asStr cxxV DEFAULT_CXX
    let (ccV, record) := Record.pop record "cc"
    let cc := JVal.asStr ccV DEFAULT_CC
    let (srcs2V, record) := Record.pop record "srcs"
    let include_dirs := (JVal.asList srcs2V []).map (fun dir => normpath (joinPath directory dir))
    pure ({ base, sources, cc_flags, cxx_flags, ld_flags, include_dirs, cxx, cc }, record)

/-- `CcTarget.validate_keys`: any key still in the record is an error. -/
def validateKeys (name : String) (record : Record) : Except String Unit :=
  match record with
  | [] => .ok ()
  | (key, _) :: _ => .error ("Unknown key " ++ key ++ " for target " ++ name)

/-- `CcBinary.__init__`: `CcTarget.__init__` followed by `validate_keys`. -/
def ccBinaryInit (record : Record) (directory : String) : Except String CcTarget := do
  let (t, record) ← ccTargetInit record directory
  validateKeys t.base.name record
  pure t

/-- `CcStaticLibrary.__init__`: `CcTarget.__init__` then `validate_keys`. -/
def ccStaticLibraryInit (record : Record) (directory : String) : Except String CcTarget := do
  let (t, record) ← ccTargetInit record directory
  validateKeys t.base.name record
  pure t

/-- `CcTarget._get_compiler_for_source`. -/
def getCompilerForSource (t : CcTarget) (source : String) : Except String String :=
  if strEndsWith source ".c" then .ok t.cc
  else if strEndsWith source ".cc" ∨ strEndsWith source ".cpp" then .ok t.cxx
  else .error ("Native target " ++ t.base.name ++ ". Unknown compiler for source " ++ source)

/-- `CcTarget._get_flags_for_source`. -/
def getFlagsForSource (t : CcTarget) (source : String) : Except String (List String) :=
  if strEndsWith source ".c" then .ok t.cc_flags
  else if strEndsWith source ".cc" ∨ strEndsWith source ".cpp" then .ok t.cxx_flags
  else .error ("Native target " ++ t.base.name ++ ". Unknown flags for source " ++ source)

/-- `CcTarget._get_translation_unit_build_cmd`: the argument vector for
compiling one source. -/
def getTranslationUnitBuildCmd (t : CcTarget) (src : String) : Except String (List String) := do
  let objectFile := getObjectFilePath src
  let compiler ← getCompilerForSource t src
  let flags ← getFlagsForSource t src
  pure ([compiler, "-c"] ++ flags ++ t.include_dirs.map (fun d => "-I" ++ d)
        ++ [src, "-o", objectFile] ++ ["-MMD"])

/-- One entry of the compilation database (`arguments`/`directory`/`file`). -/
structure CompRecord where
  arguments : List String
  directory : String
  file : String
deriving DecidableEq, Repr

/-- The loop of `CcTarget.get_compilation_database` over a source list. -/
def getCompilationDatabaseGo (t : CcTarget) (cwd : String) :
    List String → Except String (List CompRecord)
  | [] => .ok []
  | src :: rest =>
    match getTranslationUnitBuildCmd t src with
    | .error e => .error e
    | .ok args =>
      match getCompilationDatabaseGo t cwd rest with
      | .error e => .error e
      | .ok restRecords =>
        .ok ({ arguments := args, directory := cwd, file := src } :: restRecords)

/-- `CcTarget.get_compilation_database`: one record per source, built with
the same `_get_translation_unit_build_cmd` as the build step.  `cwd` is
`os.getcwd()`.  The filesystem is passed to model the ambient process
state; the method's body performs no filesystem access. -/
def getCompilationDatabase (t : CcTarget) (cwd : String) (_fs : FS) :
    Except String (List CompRecord) :=
  getCompilationDatabaseGo t cwd t.sources

/-- `CcTarget._build_translation_unit`: decide staleness (parsing the
sidecar lazily) and return the compiler command that is run (`some cmd`),
or `none` when the rebuild is skipped. -/
def buildTranslationUnit (fs : FS) (t : CcTarget) (source : String) :
    Except String (Option (List String)) :=
  match buildTranslationUnitStaleness fs source with
  | .error e => .error e
  | .ok true =>
    match getTranslationUnitBuildCmd t source with
    | .error e => .error e
    | .ok cmd => .ok (some cmd)
  | .ok false => .ok none

/-! ### Target graph (`src/config.py`) -/

/-- `target.split(':', maxsplit=1)` on the character list: split at the
first colon, if any. -/
def splitFirstColonList : List Char → Option (List Char × List Char)
  | [] => none
  | c :: cs =>
    if c = ':' then some ([], cs)
    else
      match splitFirstColonList cs with
      | none => none
      | some (a, b) => some (c :: a, b)

/-- Parse a target reference as `Config.find_target` does: the part before
the first `':'` is the namespace (empty when there is no colon), the rest
is the target name. -/
def splitReference (s : String) : String × String :=
  match splitFirstColonList s.data with
  | none => ("", s)
  | some (a, b) => (String.mk a, String.mk b)

/-- `Config.find_target`: linear scan returning the first target whose
name and namespace both match the parsed reference. -/
def findTarget (targets : List CcTarget) (ref : String) : Option CcTarget :=
  let (nspace, targetName) := splitReference ref
  targets.find? (fun t => t.base.name == targetName && t.base.nspace == nspace)

/-- A registry entry: a target type tag, the `RUNNABLE` flag, and the
constructor (the class object in Python). -/
structure Handler where
  targetType : String
  runnable : Bool
  construct : Record → String → Except String CcTarget

/-- `Target.accepts`: the requested tag equals the class's `TARGET_TYPE`.
A non-string manifest value is never equal to the tag string. -/
def accepts (h : Handler) (targetType : JVal) : Bool :=
  targetType == JVal.str h.targetType

/-- The `CcBinary` class as a registry entry. -/
def CcBinaryHandler : Handler := ⟨"cc_binary", true, ccBinaryInit⟩

/-- The `CcStaticLibrary` class as a registry entry. -/
def CcStaticLibraryHandler : Handler := ⟨"cc_library_static", false, ccStaticLibraryInit⟩

/-- `_config_handlers`: the fixed, ordered registry. -/
def configHandlers : List Handler := [CcBinaryHandler, CcStaticLibraryHandler]

/-- The rendering of a manifest value inside an error message. -/
def tagText : JVal → String
  | .str s => s
  | .list xs => strJoin ", " xs

/-- The error message of `get_handler_for_type` for an unknown tag. -/
def handlerNotFoundMsg (tag : JVal) : String :=
  "Target type \"" ++ tagText tag ++ "\" was not found!"

/-- `get_handler_for_type` generalized over the registry list: return the
first handler accepting the tag, else fail naming the tag. -/
def getHandlerForTypeIn (handlers : List Handler) (targetType : JVal) : Except String Handler :=
  match handlers with
  | [] => .error (handlerNotFoundMsg targetType)
  | h :: rest => if accepts h targetType then .ok h else getHandlerForTypeIn rest targetType

/-- `get_handler_for_type` over the actual registry. -/
def getHandlerForType (targetType : JVal) : Except String Handler :=
  getHandlerForTypeIn configHandlers targetType

/-- `Config._handle_config_file`: process the manifest's records in order;
pop `type` (failing when absent), look up the handler, construct the
target.  Any error aborts the whole load: no target list is produced. -/
def handleConfigFile (manifest : List Record) (directory : String) :
    Except String (List CcTarget) :=
  match manifest with
  | [] => .ok []
  | record :: rest =>
    let (typeV, record) := Record.pop record "type"
    match typeV with
    | none => .error "Target has no type!"
    | some tv =>
      match getHandlerForTypeIn configHandlers tv with
      | .error e => .error e
      | .ok handler =>
        match handler.construct record directory with
        | .error e => .error e
        | .ok t =>
          match handleConfigFile rest directory with
          | .error e => .error e
          | .ok ts => .ok (t :: ts)

/-- The error message for an unresolvable dependency reference: it names
both the unresolved reference and the referencing target. -/
def unresolvedDepMsg (fqname ref : String) : String :=
  "Could not resolve dependency \"" ++ ref ++ "\" of target \"" ++ fqname ++ "\""

/-- Modelled from the spec: `Target.resolve_dependencies` is invoked by
the second pass of `Config.__init__` (src/config.py line 45) but its
definition is not among the sources.  Per spec §3 and §4.4, a target
carries declared dependency references; resolution maps each declared
reference through the supplied finder and stores the resolved target, or
fails with an error naming the referencing target and the unresolved
reference. -/
def resolveDependencies (fqname : String) (declaredRefs : List String)
    (finder : String → Option CcTarget) : Except String (List (String × CcTarget)) :=
  match declaredRefs with
  | [] => .ok []
  | ref :: rest =>
    match finder ref with
    | none => .error (unresolvedDepMsg fqname ref)
    | some dep =>
      match resolveDependencies fqname rest finder with
      | .error e => .error e
      | .ok restResolved => .ok ((ref, dep) :: restResolved)

/-- The loop of the second pass of `Config.__init__` over the constructed
targets: resolve each target's declared references with `find_target` over
the full target set.  `declared` supplies the spec-level dependency
declarations (see `resolveDependencies`). -/
def resolveAllDependenciesGo (targets : List CcTarget) (declared : CcTarget → List String) :
    List CcTarget → Except String (List (CcTarget × List (String × CcTarget)))
  | [] => .ok []
  | t :: rest =>
    match resolveDependencies (getFullyQualifiedName t.base) (declared t)
        (fun name => findTarget targets name) with
    | .error e => .error e
    | .ok resolved =>
      match resolveAllDependenciesGo targets declared rest with
      | .error e => .error e
      | .ok restResolved => .ok ((t, resolved) :: restResolved)

/-- The dependency-resolution second pass of `Config.__init__`
(src/config.py lines 42-45). -/
def resolveAllDependencies (targets : List CcTarget) (declared : CcTarget → List String) :
    Except String (List (CcTarget × List (String × CcTarget))) :=
  resolveAllDependenciesGo targets declared targets

end Mach

/-- **C1.** For every output path `O` and dependency sequence `D`, the
staleness check `_needs_rebuild` reports stale if `O` does not exist; if
`O` exists it reports stale exactly when some `d ∈ D` is missing or has a
last-modified timestamp strictly greater than `O`'s; otherwise up to date. -/
theorem c1_needs_rebuild_staleness (fs : Mach.FS) (o : String) (d : List String) :
    (fs.pathExists o = false → Mach.needsRebuild fs o d = true) ∧
    (fs.pathExists o = true →
      (Mach.needsRebuild fs o d = true ↔
        ∃ dep ∈ d, fs.pathExists dep = false ∨ fs.mtime o < fs.mtime dep)) := by
  constructor
  · intro h
    unfold Mach.needsRebuild
    unfold Mach.FS.pathExists at h
    cases hf : fs.files o with
    | none => rfl
    | some v => rw [hf] at h; simp at h
  · intro h
    unfold Mach.FS.pathExists at h
    cases hf : fs.files o with
    | none => rw [hf] at h; simp at h
    | some v =>
      obtain ⟨tm, lines⟩ := v
      unfold Mach.needsRebuild
      rw [hf]
      rw [List.any_eq_true]
      constructor
      · rintro ⟨dep, hmem, hdep⟩
        refine ⟨dep, hmem, ?_⟩
        cases hdf : fs.files dep with
        | none => left; simp [Mach.FS.pathExists, hdf]
        | some w =>
          obtain ⟨dm, dl⟩ := w
          rw [hdf] at hdep
          right
          simp only [decide_eq_true_eq] at hdep
          simpa [Mach.FS.mtime, hf, hdf] using hdep
      · rintro ⟨dep, hmem, hdep⟩
        refine ⟨dep, hmem, ?_⟩
        cases hdf : fs.files dep with
        | none => simp
        | some w =>
          obtain ⟨dm, dl⟩ := w
          rcases hdep with hmiss | hlt
          · simp [Mach.FS.pathExists, hdf] at hmiss
          · simp only [Mach.FS.mtime, hf, hdf] at hlt
            simpa using hlt

/-- Witness for C1 at a concrete filesystem: the output `"o"` exists with
mtime 5 and the dependency `"d"` has mtime 7, so the check reports stale. -/
theorem c1_needs_rebuild_staleness_witness :
    let fs : Mach.FS := ⟨fun p => if p = "o" then some (5, []) else if p = "d" then some (7, []) else none⟩
    fs.pathExists "o" = true ∧
    (Mach.needsRebuild fs "o" ["d"] = true ↔
      ∃ dep ∈ ["d"], fs.pathExists dep = false ∨ fs.mtime "o" < fs.mtime dep) := by
  exact ⟨by decide, (c1_needs_rebuild_staleness _ "o" ["d"]).2 (by decide)⟩

/-- **C8.** For every compile step whose object file does not exist, the
staleness determination in `_build_translation_unit` reports stale and
succeeds without forcing the dependency sequence: the result is `ok true`
for every possible dependency thunk, in particular when the sidecar `.d`
file is absent, so a first build never errors on a missing sidecar. -/
theorem c8_missing_object_never_reads_sidecar (fs : Mach.FS) (source : String)
    (h : fs.files (Mach.getObjectFilePath source) = none) :
    (∀ deps : Unit → Except String (List String),
      Mach.needsRebuildLazy fs (Mach.getObjectFilePath source) deps = .ok true) ∧
    Mach.buildTranslationUnitStaleness fs source = .ok true := by
  have key : ∀ deps : Unit → Except String (List String),
      Mach.needsRebuildLazy fs (Mach.getObjectFilePath source) deps = .ok true := by
    intro deps
    unfold Mach.needsRebuildLazy
    rw [h]
  refine ⟨key, ?_⟩
  show Mach.needsRebuildLazy fs (Mach.getObjectFilePath source)
      (fun _ => Mach.parseDeps fs (Mach.getObjectFilePath source)) = .ok true
  exact key (fun _ => Mach.parseDeps fs (Mach.getObjectFilePath source))

/-- Witness for C8 on the empty filesystem (no object file, no sidecar)
with source `"a.c"`. -/
theorem c8_missing_object_never_reads_sidecar_witness :
    let fs : Mach.FS := ⟨fun _ => none⟩
    fs.files (Mach.getObjectFilePath "a.c") = none ∧
    Mach.buildTranslationUnitStaleness fs "a.c" = .ok true :=
  ⟨rfl, (c8_missing_object_never_reads_sidecar ⟨fun _ => none⟩ "a.c" rfl).2⟩

/-- **C10.** The source-to-object-path derivation is not injective:
`foo.c` and `foo.cpp` are distinct sources mapped to the same object file
path, and hence also to the same sidecar dependency-file path. -/
theorem c10_object_path_collision :
    ("foo.c" : String) ≠ "foo.cpp" ∧
    Mach.getObjectFilePath "foo.c" = Mach.getObjectFilePath "foo.cpp" ∧
    (Mach.splitext (Mach.getObjectFilePath "foo.c")).1 ++ ".d"
      = (Mach.splitext (Mach.getObjectFilePath "foo.cpp")).1 ++ ".d" := by
  refine ⟨by decide, ?_, ?_⟩ <;> rfl

/-- Helper: the value returned by `pop` is the first binding of the key. -/
theorem record_pop_fst (r : Mach.Record) (key : String) :
    (Mach.Record.pop r key).1 = Mach.Record.lookupKey r key := by
  induction r with
  | nil => rfl
  | cons kv rest ih =>
    obtain ⟨k, v⟩ := kv
    by_cases h : k = key <;> simp [Mach.Record.pop, Mach.Record.lookupKey, h, ih]

/-- Counterexample for **C6** as stated: a declaration whose `target` name
is the empty string is accepted by `Target.__init__` (the source only
rejects an absent name or a name containing `':'`), while the claim says
an empty name causes construction to raise. -/
theorem c6_counterexample_empty_name_accepted :
    (Mach.targetInit [("target", Mach.JVal.str "")] ".").isOk = true := by decide

/-- **C6 (amended).** Base target construction fails exactly when the
declared name is absent or contains the namespace separator `':'`; any
other declared string name — including the empty string — is accepted. -/
theorem c6_name_validation (r : Mach.Record) (d : String)
    (h : ∀ xs, Mach.Record.lookupKey r "target" ≠ some (Mach.JVal.list xs)) :
    (Mach.targetInit r d).isOk = false ↔
      (Mach.Record.lookupKey r "target" = none ∨
       ∃ s, Mach.Record.lookupKey r "target" = some (Mach.JVal.str s) ∧
         Mach.strContainsChar s ':' = true) := by
  rcases hpop : Mach.Record.pop r "target" with ⟨nameV, rest⟩
  have hp := record_pop_fst r "target"
  rw [hpop] at hp
  unfold Mach.targetInit
  rw [hpop]
  cases nameV with
  | none =>
    simp only [Except.isOk, Except.toBool]
    simp [← hp]
  | some v =>
    cases v with
    | str s =>
      by_cases hc : Mach.strContainsChar s ':' = true
      · simp only [hc, if_pos rfl]
        simp only [Except.isOk, Except.toBool]
        simp [← hp, hc]
      · simp only [hc]
        simp only [Bool.not_eq_true] at hc
        simp only [Except.isOk, Except.toBool]
        simp [← hp, hc]
    | list xs => exact absurd hp.symm (h xs)

/-- Witness for C6 (amended) at a name containing `':'`: construction
fails, and the right-hand side of the equivalence holds. -/
theorem c6_name_validation_witness :
    (∀ xs, Mach.Record.lookupKey [("target", Mach.JVal.str "a:b")] "target"
       ≠ some (Mach.JVal.list xs)) ∧
    ((Mach.targetInit [("target", Mach.JVal.str "a:b")] ".").isOk = false ↔
      (Mach.Record.lookupKey [("target", Mach.JVal.str "a:b")] "target" = none ∨
       ∃ s, Mach.Record.lookupKey [("target", Mach.JVal.str "a:b")] "target"
           = some (Mach.JVal.str s) ∧ Mach.strContainsChar s ':' = true)) :=
  ⟨fun xs hxs => by simp [Mach.Record.lookupKey] at hxs,
   c6_name_validation [("target", Mach.JVal.str "a:b")] "."
     (fun xs hxs => by simp [Mach.Record.lookupKey] at hxs)⟩

/-- **C3 (code bug).** A native target declared with `include: ["inc"]`
loses its include directories: `CcTarget.__init__` first computes
`include_dirs` from the `include` key but then reassigns it from a second
`pop` of the already-consumed `srcs` key, so `include_dirs` is empty and
the compile command contains no `-I` argument at all. -/
theorem c3_include_dirs_discarded :
    ((Mach.ccTargetInit
        [("target", Mach.JVal.str "t"), ("srcs", Mach.JVal.list ["a.c"]),
         ("include", Mach.JVal.list ["inc"])] ".").map
       (fun p => p.1.include_dirs) = .ok []) ∧
    ((do
        let (t, _) ← Mach.ccTargetInit
          [("target", Mach.JVal.str "t"), ("srcs", Mach.JVal.list ["a.c"]),
           ("include", Mach.JVal.list ["inc"])] "."
        Mach.getTranslationUnitBuildCmd t "a.c" : Except String (List String))
      = .ok ["gcc", "-c", "a.c", "-o", "out/intermeditates/a.o", "-MMD"]) ∧
    (["gcc", "-c", "a.c", "-o", "out/intermeditates/a.o", "-MMD"].all
       (fun arg => !Mach.strStartsWith arg "-I") = true) := by
  refine ⟨rfl, rfl, by decide⟩

/-- Helper: splitting at the first colon recovers the two halves when the
first half is colon-free. -/
theorem splitFirstColonList_append (ns nm : List Char) (h : ∀ c ∈ ns, c ≠ ':') :
    Mach.splitFirstColonList (ns ++ ':' :: nm) = some (ns, nm) := by
  induction ns with
  | nil => simp [Mach.splitFirstColonList]
  | cons c cs ih =>
    have hc : c ≠ ':' := h c (List.mem_cons_self c cs)
    have ih' := ih (fun x hx => h x (List.mem_cons_of_mem c hx))
    simp [Mach.splitFirstColonList, hc, ih']

/-- Helper: `find_target`'s reference parsing recovers namespace and name
from a fully qualified name whose namespace is colon-free. -/
theorem splitReference_fqn (ns nm : String) (h : ∀ c ∈ ns.data, c ≠ ':') :
    Mach.splitReference (ns ++ ":" ++ nm) = (ns, nm) := by
  unfold Mach.splitReference
  have hdata : (ns ++ ":" ++ nm).data = ns.data ++ ':' :: nm.data := by
    simp [String.data_append]
  rw [hdata, splitFirstColonList_append ns.data nm.data h]

/-- Helper: `find_target` as a `List.find?`. -/
theorem findTarget_eq (targets : List Mach.CcTarget) (ref : String) :
    Mach.findTarget targets ref =
      targets.find? (fun t' =>
        t'.base.name == (Mach.splitReference ref).2 &&
        t'.base.nspace == (Mach.splitReference ref).1) := by
  unfold Mach.findTarget
  rcases h : Mach.splitReference ref with ⟨ns, nm⟩
  rfl

/-- Counterexample for **C5** as stated: a graph constructed from two
manifest records with the same name and namespace (construction does not
reject duplicates).  For the second target, `find_target` applied to its
fully qualified name returns the *first* target, not it. -/
theorem c5_counterexample_duplicate_pair :
    Mach.handleConfigFile
        [[("target", Mach.JVal.str "n"), ("type", Mach.JVal.str "cc_binary"),
          ("srcs", Mach.JVal.list ["a.c"])],
         [("target", Mach.JVal.str "n"), ("type", Mach.JVal.str "cc_binary"),
          ("srcs", Mach.JVal.list ["b.c"])]] "."
      = .ok [⟨⟨"n", none, ".", ""⟩, ["a.c"], [], [], [], [], "g++", "gcc"⟩,
             ⟨⟨"n", none, ".", ""⟩, ["b.c"], [], [], [], [], "g++", "gcc"⟩] ∧
    Mach.findTarget
        [⟨⟨"n", none, ".", ""⟩, ["a.c"], [], [], [], [], "g++", "gcc"⟩,
         ⟨⟨"n", none, ".", ""⟩, ["b.c"], [], [], [], [], "g++", "gcc"⟩]
        (Mach.getFullyQualifiedName
          (⟨⟨"n", none, ".", ""⟩, ["b.c"], [], [], [], [], "g++", "gcc"⟩ : Mach.CcTarget).base)
      = some ⟨⟨"n", none, ".", ""⟩, ["a.c"], [], [], [], [], "g++", "gcc"⟩ ∧
    (⟨⟨"n", none, ".", ""⟩, ["a.c"], [], [], [], [], "g++", "gcc"⟩ : Mach.CcTarget)
      ≠ ⟨⟨"n", none, ".", ""⟩, ["b.c"], [], [], [], [], "g++", "gcc"⟩ := by
  refine ⟨rfl, rfl, by decide⟩

/-- **C5 (amended).** Round-trip lookup holds for every target of the
graph whose namespace is colon-free and whose (namespace, name) pair is
not shared with a distinct target of the graph: `find_target` applied to
its fully qualified name returns that exact target. -/
theorem c5_round_trip_lookup (targets : List Mach.CcTarget) (t : Mach.CcTarget)
    (hmem : t ∈ targets)
    (hns : ∀ c ∈ t.base.nspace.data, c ≠ ':')
    (huniq : ∀ t' ∈ targets, t'.base.name = t.base.name →
      t'.base.nspace = t.base.nspace → t' = t) :
    Mach.findTarget targets (Mach.getFullyQualifiedName t.base) = some t := by
  rw [findTarget_eq]
  rw [show Mach.getFullyQualifiedName t.base = t.base.nspace ++ ":" ++ t.base.name from rfl]
  rw [splitReference_fqn _ _ hns]
  have hsome : (targets.find? (fun t' =>
      t'.base.name == t.base.name && t'.base.nspace == t.base.nspace)).isSome := by
    rw [List.find?_isSome]
    exact ⟨t, hmem, by simp⟩
  obtain ⟨x, hx⟩ := Option.isSome_iff_exists.mp hsome
  have hpx := List.find?_some hx
  have hxmem := List.mem_of_find?_eq_some hx
  simp only [Bool.and_eq_true, beq_iff_eq] at hpx
  rw [hx, huniq x hxmem hpx.1 hpx.2]

/-- Witness for C5 (amended) on a one-target graph. -/
theorem c5_round_trip_lookup_witness :
    let t : Mach.CcTarget := ⟨⟨"n", none, ".", ""⟩, ["a.c"], [], [], [], [], "g++", "gcc"⟩
    Mach.findTarget [t] (Mach.getFullyQualifiedName t.base) = some t := by
  intro t
  exact c5_round_trip_lookup [t] t (by simp) (by decide)
    (fun t' ht' _ _ => by simpa using ht')

/-- Helper: when no registered handler accepts the tag, the registry
lookup fails with the message naming the tag. -/
theorem getHandlerForTypeIn_err (hs : List Mach.Handler) (tag : Mach.JVal)
    (h : ∀ x ∈ hs, Mach.accepts x tag = false) :
    Mach.getHandlerForTypeIn hs tag = .error (Mach.handlerNotFoundMsg tag) := by
  induction hs with
  | nil => rfl
  | cons hd rest ih =>
    have h1 : Mach.accepts hd tag = false := h hd (List.mem_cons_self _ _)
    simp [Mach.getHandlerForTypeIn, h1,
      ih (fun x hx => h x (List.mem_cons_of_mem _ hx))]

/-- Helper: a successful registry lookup returns the first handler in
registry order that accepts the tag. -/
theorem getHandlerForTypeIn_ok (hs : List Mach.Handler) (tag : Mach.JVal)
    (hd : Mach.Handler) :
    Mach.getHandlerForTypeIn hs tag = .ok hd →
    ∃ i, ∃ hi : i < hs.length, hs.get ⟨i, hi⟩ = hd ∧ Mach.accepts hd tag = true ∧
      ∀ x ∈ hs.take i, Mach.accepts x tag = false := by
  induction hs with
  | nil => intro h; simp [Mach.getHandlerForTypeIn] at h
  | cons x rest ih =>
    intro h
    by_cases hx : Mach.accepts x tag = true
    · have hrw : Mach.getHandlerForTypeIn (x :: rest) tag = .ok x := by
        simp [Mach.getHandlerForTypeIn, hx]
      rw [hrw] at h
      obtain rfl : x = hd := by injection h
      exact ⟨0, Nat.succ_pos _, rfl, hx, by simp⟩
    · have hrw : Mach.getHandlerForTypeIn (x :: rest) tag
          = Mach.getHandlerForTypeIn rest tag := by
        simp [Mach.getHandlerForTypeIn, hx]
      rw [hrw] at h
      obtain ⟨i, hi, hget, hacc, htake⟩ := ih h
      refine ⟨i + 1, Nat.succ_lt_succ hi, hget, hacc, ?_⟩
      intro y hy
      rcases List.mem_cons.mp (by simpa [List.take] using hy) with hyx | hyrest
      · subst hyx; simpa using hx
      · exact htake y hyrest

/-- Helper: a manifest containing a record whose declared type tag is
accepted by no registered handler makes the whole load fail. -/
theorem handleConfigFile_fails (manifest : List Mach.Record) (dir : String)
    (r : Mach.Record) (tag : Mach.JVal)
    (htag : (Mach.Record.pop r "type").1 = some tag)
    (hacc : ∀ x ∈ Mach.configHandlers, Mach.accepts x tag = false) :
    r ∈ manifest → (Mach.handleConfigFile manifest dir).isOk = false := by
  induction manifest with
  | nil => intro hr; cases hr
  | cons x rest ih =>
    intro hr
    simp only [Mach.handleConfigFile]
    rcases hpop : Mach.Record.pop x "type" with ⟨typeV, rec'⟩
    dsimp only
    rcases List.mem_cons.mp hr with hrx | hrrest
    · subst hrx
      rw [hpop] at htag
      simp only at htag
      subst htag
      dsimp only
      rw [getHandlerForTypeIn_err _ _ hacc]
      rfl
    · cases typeV with
      | none => rfl
      | some tv =>
        dsimp only
        cases hh : Mach.getHandlerForTypeIn Mach.configHandlers tv with
        | error e => rfl
        | ok handler =>
          dsimp only
          cases hc : handler.construct rec' dir with
          | error e => rfl
          | ok t =>
            dsimp only
            cases hrest : Mach.handleConfigFile rest dir with
            | error e => rfl
            | ok ts =>
              have hok := ih hrrest
              rw [hrest] at hok
              simp [Except.isOk, Except.toBool] at hok

/-- **C7.** An unregistered type tag makes the registry lookup fail with a
"no such target type" error naming the tag, and makes the whole manifest
load fail (so no target list is produced); a registered tag selects the
first constructor in registry order whose declared tag equals it. -/
theorem c7_type_registry :
    (∀ tag : Mach.JVal, (∀ x ∈ Mach.configHandlers, Mach.accepts x tag = false) →
      Mach.getHandlerForType tag = .error (Mach.handlerNotFoundMsg tag)) ∧
    (∀ (tag : Mach.JVal) (hd : Mach.Handler), Mach.getHandlerForType tag = .ok hd →
      ∃ i, ∃ hi : i < Mach.configHandlers.length,
        Mach.configHandlers.get ⟨i, hi⟩ = hd ∧ Mach.accepts hd tag = true ∧
        ∀ x ∈ Mach.configHandlers.take i, Mach.accepts x tag = false) ∧
    (∀ (manifest : List Mach.Record) (dir : String) (r : Mach.Record) (tag : Mach.JVal),
      r ∈ manifest → (Mach.Record.pop r "type").1 = some tag →
      (∀ x ∈ Mach.configHandlers, Mach.accepts x tag = false) →
      (Mach.handleConfigFile manifest dir).isOk = false) := by
  refine ⟨?_, ?_, ?_⟩
  · intro tag h
    exact getHandlerForTypeIn_err _ _ h
  · intro tag hd h
    exact getHandlerForTypeIn_ok _ _ _ h
  · intro manifest dir r tag hr htag hacc
    exact handleConfigFile_fails manifest dir r tag htag hacc hr

/-- Witness for C7 at the unregistered tag `"bogus"` in a one-record
manifest. -/
theorem c7_type_registry_witness :
    ((∀ x ∈ Mach.configHandlers, Mach.accepts x (Mach.JVal.str "bogus") = false) ∧
     (Mach.Record.pop [("type", Mach.JVal.str "bogus")] "type").1
        = some (Mach.JVal.str "bogus") ∧
     ([("type", Mach.JVal.str "bogus")] : Mach.Record)
        ∈ [[("type", Mach.JVal.str "bogus")]]) ∧
    Mach.getHandlerForType (Mach.JVal.str "bogus")
        = .error (Mach.handlerNotFoundMsg (Mach.JVal.str "bogus")) ∧
    (Mach.handleConfigFile [[("type", Mach.JVal.str "bogus")]] ".").isOk = false := by
  refine ⟨⟨?_, rfl, ?_⟩, ?_, ?_⟩
  · intro x hx
    rcases List.mem_cons.mp hx with h | h
    · subst h; rfl
    · rcases List.mem_singleton.mp h with rfl; rfl
  · exact List.mem_singleton.mpr rfl
  · exact c7_type_registry.1 (Mach.JVal.str "bogus") (by
      intro x hx
      rcases List.mem_cons.mp hx with h | h
      · subst h; rfl
      · rcases List.mem_singleton.mp h with rfl; rfl)
  · exact c7_type_registry.2.2 [[("type", Mach.JVal.str "bogus")]] "."
      [("type", Mach.JVal.str "bogus")] (Mach.JVal.str "bogus")
      (List.mem_singleton.mpr rfl) rfl (by
      intro x hx
      rcases List.mem_cons.mp hx with h | h
      · subst h; rfl
      · rcases List.mem_singleton.mp h with rfl; rfl)

/-- Helper: every source in a successfully exported database has a record
whose argument vector is the one `_get_translation_unit_build_cmd`
produces for it. -/
theorem getCompilationDatabaseGo_spec (t : Mach.CcTarget) (cwd : String) :
    ∀ (srcs : List String) (records : List Mach.CompRecord),
      Mach.getCompilationDatabaseGo t cwd srcs = .ok records →
      ∀ src ∈ srcs, ∃ rec ∈ records, rec.file = src ∧ rec.directory = cwd ∧
        Mach.getTranslationUnitBuildCmd t src = .ok rec.arguments := by
  intro srcs
  induction srcs with
  | nil => intro records h src hsrc; cases hsrc
  | cons x rest ih =>
    intro records h src hsrc
    simp only [Mach.getCompilationDatabaseGo] at h
    cases hc : Mach.getTranslationUnitBuildCmd t x with
    | error e => rw [hc] at h; simp at h
    | ok args =>
      rw [hc] at h
      dsimp only at h
      cases hrest : Mach.getCompilationDatabaseGo t cwd rest with
      | error e => rw [hrest] at h; simp at h
      | ok rrecs =>
        rw [hrest] at h
        dsimp only at h
        have hrec : ({ arguments := args, directory := cwd, file := x } :
            Mach.CompRecord) :: rrecs = records := by injection h
        subst hrec
        rcases List.mem_cons.mp hsrc with rfl | hmem
        · exact ⟨_, List.mem_cons_self _ _, rfl, rfl, hc⟩
        · obtain ⟨rec, hrecmem, hrf⟩ := ih rrecs hrest src hmem
          exact ⟨rec, List.mem_cons_of_mem _ hrecmem, hrf⟩

/-- Helper: when `_build_translation_unit` runs a compiler command, that
command is the one `_get_translation_unit_build_cmd` returns. -/
theorem buildTranslationUnit_cmd (fs : Mach.FS) (t : Mach.CcTarget)
    (src : String) (cmd : List String) :
    Mach.buildTranslationUnit fs t src = .ok (some cmd) →
    Mach.getTranslationUnitBuildCmd t src = .ok cmd := by
  unfold Mach.buildTranslationUnit
  cases hs : Mach.buildTranslationUnitStaleness fs src with
  | error e => intro h; simp at h
  | ok b =>
    cases b with
    | false => intro h; simp at h
    | true =>
      cases hc : Mach.getTranslationUnitBuildCmd t src with
      | error e => intro h; simp at h
      | ok c =>
        intro h
        simp only at h
        have h1 : some c = some cmd := by injection h
        have h2 : c = cmd := by injection h1
        rw [h2]

/-- **C9.** The compilation database is independent of the filesystem
state (it never consults the staleness engine), and for every source the
exported record's `arguments` equal the compile command the build step
runs for that source — both come from the same argument-vector
construction function. -/
theorem c9_compilation_database (t : Mach.CcTarget) (cwd : String) (fs fs' : Mach.FS) :
    Mach.getCompilationDatabase t cwd fs = Mach.getCompilationDatabase t cwd fs' ∧
    (∀ (records : List Mach.CompRecord) (src : String) (cmd : List String),
      Mach.getCompilationDatabase t cwd fs = .ok records →
      Mach.buildTranslationUnit fs' t src = .ok (some cmd) →
      src ∈ t.sources →
      ∃ rec ∈ records, rec.file = src ∧ rec.directory = cwd ∧ rec.arguments = cmd) := by
  constructor
  · rfl
  · intro records src cmd hdb hbuild hsrc
    obtain ⟨rec, hmem, hfile, hdir, hcmd⟩ :=
      getCompilationDatabaseGo_spec t cwd t.sources records hdb src hsrc
    have hbc := buildTranslationUnit_cmd fs' t src cmd hbuild
    rw [hbc] at hcmd
    have : cmd = rec.arguments := by injection hcmd
    exact ⟨rec, hmem, hfile, hdir, this.symm⟩

/-- Witness for C9 on a concrete one-source target over the empty
filesystem (object file missing, so the build step runs the command). -/
theorem c9_compilation_database_witness :
    let t : Mach.CcTarget := ⟨⟨"t", none, ".", ""⟩, ["a.c"], [], [], [], [], "g++", "gcc"⟩
    let cmd : List String := ["gcc", "-c", "a.c", "-o", "out/intermeditates/a.o", "-MMD"]
    let recs : List Mach.CompRecord := [⟨cmd, "cwd", "a.c"⟩]
    (Mach.getCompilationDatabase t "cwd" ⟨fun _ => none⟩ = .ok recs ∧
     Mach.buildTranslationUnit ⟨fun _ => none⟩ t "a.c" = .ok (some cmd) ∧
     "a.c" ∈ t.sources) ∧
    ∃ rec ∈ recs, rec.file = "a.c" ∧ rec.directory = "cwd" ∧ rec.arguments = cmd := by
  intro t cmd recs
  refine ⟨⟨rfl, rfl, by simp⟩, ?_⟩
  exact (c9_compilation_database t "cwd" ⟨fun _ => none⟩ ⟨fun _ => none⟩).2
    recs "a.c" cmd rfl rfl (by simp)

/-- Helper: a successful resolution stores exactly the declared references
in order, each mapped to the target the finder returns. -/
theorem resolveDependencies_ok_spec (fq : String)
    (finder : String → Option Mach.CcTarget) :
    ∀ (refs : List String) (l : List (String × Mach.CcTarget)),
      Mach.resolveDependencies fq refs finder = .ok l →
      l.map Prod.fst = refs ∧ ∀ p ∈ l, finder p.1 = some p.2 := by
  intro refs
  induction refs with
  | nil =>
    intro l h
    have : ([] : List (String × Mach.CcTarget)) = l := by injection h
    subst this
    exact ⟨rfl, by intro p hp; cases hp⟩
  | cons r rest ih =>
    intro l h
    simp only [Mach.resolveDependencies] at h
    cases hf : finder r with
    | none => rw [hf] at h; simp at h
    | some dep =>
      rw [hf] at h
      dsimp only at h
      cases hrest : Mach.resolveDependencies fq rest finder with
      | error e => rw [hrest] at h; simp at h
      | ok rl =>
        rw [hrest] at h
        dsimp only at h
        have : (r, dep) :: rl = l := by injection h
        subst this
        obtain ⟨hmap, hall⟩ := ih rl hrest
        refine ⟨by simp [hmap], ?_⟩
        intro p hp
        rcases List.mem_cons.mp hp with rfl | hmem
        · exact hf
        · exact hall p hmem

/-- Helper: when every declared reference resolves, resolution succeeds. -/
theorem resolveDependencies_total (fq : String)
    (finder : String → Option Mach.CcTarget) :
    ∀ refs : List String, (∀ ref ∈ refs, (finder ref).isSome = true) →
      ∃ l, Mach.resolveDependencies fq refs finder = .ok l := by
  intro refs
  induction refs with
  | nil => intro _; exact ⟨[], rfl⟩
  | cons r rest ih =>
    intro h
    have hr : (finder r).isSome = true := h r (List.mem_cons_self _ _)
    obtain ⟨dep, hdep⟩ := Option.isSome_iff_exists.mp hr
    obtain ⟨rl, hrl⟩ := ih (fun x hx => h x (List.mem_cons_of_mem _ hx))
    refine ⟨(r, dep) :: rl, ?_⟩
    simp only [Mach.resolveDependencies]
    rw [hdep]
    dsimp only
    rw [hrl]

/-- Helper: an unresolvable declared reference makes resolution fail with
the message naming the (first unresolvable) reference and the target. -/
theorem resolveDependencies_err (fq : String)
    (finder : String → Option Mach.CcTarget) :
    ∀ (refs : List String) (ref : String), ref ∈ refs → finder ref = none →
      ∃ ref', ref' ∈ refs ∧ finder ref' = none ∧
        Mach.resolveDependencies fq refs finder
          = .error (Mach.unresolvedDepMsg fq ref') := by
  intro refs
  induction refs with
  | nil => intro ref h; cases h
  | cons r rest ih =>
    intro ref href hnone
    by_cases hr : finder r = none
    · refine ⟨r, List.mem_cons_self _ _, hr, ?_⟩
      simp only [Mach.resolveDependencies]
      rw [hr]
    · obtain ⟨dep, hdep⟩ := Option.ne_none_iff_exists'.mp hr
      have hrefrest : ref ∈ rest := by
        rcases List.mem_cons.mp href with rfl | hm
        · exact absurd hnone hr
        · exact hm
      obtain ⟨ref', hmem, hn, herr⟩ := ih ref hrefrest hnone
      refine ⟨ref', List.mem_cons_of_mem _ hmem, hn, ?_⟩
      simp only [Mach.resolveDependencies]
      rw [hdep]
      dsimp only
      rw [herr]

/-- Helper: the second pass succeeds on a sublist exactly when every
declared reference of every target in it resolves, and a success pairs
every target with its fully resolved dependency list. -/
theorem resolveAllDependenciesGo_spec (targets : List Mach.CcTarget)
    (declared : Mach.CcTarget → List String) :
    ∀ l : List Mach.CcTarget,
      ((Mach.resolveAllDependenciesGo targets declared l).isOk = true ↔
        ∀ t ∈ l, ∀ ref ∈ declared t, (Mach.findTarget targets ref).isSome = true) ∧
      (∀ res, Mach.resolveAllDependenciesGo targets declared l = .ok res →
        res.map Prod.fst = l ∧
        ∀ p ∈ res, p.2.map Prod.fst = declared p.1 ∧
          ∀ q ∈ p.2, Mach.findTarget targets q.1 = some q.2) := by
  intro l
  induction l with
  | nil =>
    refine ⟨by simp [Mach.resolveAllDependenciesGo, Except.isOk, Except.toBool], ?_⟩
    intro res h
    have : ([] : List (Mach.CcTarget × List (String × Mach.CcTarget))) = res := by injection h
    subst this
    exact ⟨rfl, by intro p hp; cases hp⟩
  | cons t rest ih =>
    constructor
    · constructor
      · intro h
        intro t' ht' ref href
        simp only [Mach.resolveAllDependenciesGo] at h
        cases hres : Mach.resolveDependencies (Mach.getFullyQualifiedName t.base)
            (declared t) (fun name => Mach.findTarget targets name) with
        | error e => rw [hres] at h; simp [Except.isOk, Except.toBool] at h
        | ok resolved =>
          rw [hres] at h
          dsimp only at h
          cases hrest : Mach.resolveAllDependenciesGo targets declared rest with
          | error e => rw [hrest] at h; simp [Except.isOk, Except.toBool] at h
          | ok rl =>
            rcases List.mem_cons.mp ht' with rfl | hmem
            · by_contra hnone
              have hnone' : Mach.findTarget targets ref = none := by
                cases hfind : Mach.findTarget targets ref with
                | none => rfl
                | some v => rw [hfind] at hnone; simp at hnone
              obtain ⟨ref', _, _, herr⟩ := resolveDependencies_err
                (Mach.getFullyQualifiedName t'.base)
                (fun name => Mach.findTarget targets name)
                (declared t') ref href hnone'
              rw [herr] at hres
              cases hres
            · have : (Mach.resolveAllDependenciesGo targets declared rest).isOk = true := by
                rw [hrest]; rfl
              exact ((ih.1).mp this) t' hmem ref href
      · intro h
        have hme : ∀ ref ∈ declared t, (Mach.findTarget targets ref).isSome = true :=
          h t (List.mem_cons_self _ _)
        obtain ⟨dl, hdl⟩ := resolveDependencies_total
          (Mach.getFullyQualifiedName t.base)
          (fun name => Mach.findTarget targets name) (declared t) hme
        have hrest : (Mach.resolveAllDependenciesGo targets declared rest).isOk = true :=
          (ih.1).mpr (fun t' ht' => h t' (List.mem_cons_of_mem _ ht'))
        obtain ⟨rl, hrl⟩ : ∃ rl, Mach.resolveAllDependenciesGo targets declared rest
            = .ok rl := by
          cases hx : Mach.resolveAllDependenciesGo targets declared rest with
          | error e => rw [hx] at hrest; simp [Except.isOk, Except.toBool] at hrest
          | ok rl => exact ⟨rl, rfl⟩
        simp only [Mach.resolveAllDependenciesGo]
        rw [hdl]
        dsimp only
        rw [hrl]
        rfl
    · intro res h
      simp only [Mach.resolveAllDependenciesGo] at h
      cases hres : Mach.resolveDependencies (Mach.getFullyQualifiedName t.base)
          (declared t) (fun name => Mach.findTarget targets name) with
      | error e => rw [hres] at h; simp at h
      | ok resolved =>
        rw [hres] at h
        dsimp only at h
        cases hrest : Mach.resolveAllDependenciesGo targets declared rest with
        | error e => rw [hrest] at h; simp at h
        | ok rl =>
          rw [hrest] at h
          dsimp only at h
          have : (t, resolved) :: rl = res := by injection h
          subst this
          obtain ⟨hmap, hall⟩ := (ih.2) rl hrest
          refine ⟨by simp [hmap], ?_⟩
          intro p hp
          rcases List.mem_cons.mp hp with rfl | hmem
          · obtain ⟨h1, h2⟩ := resolveDependencies_ok_spec
              (Mach.getFullyQualifiedName t.base)
              (fun name => Mach.findTarget targets name) (declared t) resolved hres
            exact ⟨h1, h2⟩
          · exact hall p hmem

/-- **C2.** The dependency-resolution second pass over a constructed
target set resolves every declared reference of every target against the
full target set via `find_target` and stores the resolved target; it fails
exactly when some declared reference does not resolve, and a failure of a
single target's resolution carries a message naming the referencing target
and the unresolved reference. -/
theorem c2_dependency_resolution (targets : List Mach.CcTarget)
    (declared : Mach.CcTarget → List String) :
    ((Mach.resolveAllDependencies targets declared).isOk = true ↔
      ∀ t ∈ targets, ∀ ref ∈ declared t, (Mach.findTarget targets ref).isSome = true) ∧
    (∀ res, Mach.resolveAllDependencies targets declared = .ok res →
      res.map Prod.fst = targets ∧
      ∀ p ∈ res, p.2.map Prod.fst = declared p.1 ∧
        ∀ q ∈ p.2, Mach.findTarget targets q.1 = some q.2) ∧
    (∀ t ref, ref ∈ declared t → Mach.findTarget targets ref = none →
      ∃ ref', ref' ∈ declared t ∧ Mach.findTarget targets ref' = none ∧
        Mach.resolveDependencies (Mach.getFullyQualifiedName t.base) (declared t)
          (fun name => Mach.findTarget targets name)
          = .error (Mach.unresolvedDepMsg (Mach.getFullyQualifiedName t.base) ref')) := by
  refine ⟨(resolveAllDependenciesGo_spec targets declared targets).1,
          (resolveAllDependenciesGo_spec targets declared targets).2, ?_⟩
  intro t ref href hnone
  exact resolveDependencies_err _ _ (declared t) ref href hnone

/-- Witness for C2 on a one-target graph whose target declares one
resolvable reference (itself). -/
theorem c2_dependency_resolution_witness :
    let t : Mach.CcTarget := ⟨⟨"n", none, ".", ""⟩, ["a.c"], [], [], [], [], "g++", "gcc"⟩
    (∀ t' ∈ [t], ∀ ref ∈ [":n"], (Mach.findTarget [t] ref).isSome = true) ∧
    (Mach.resolveAllDependencies [t] (fun _ => [":n"])).isOk = true := by
  intro t
  refine ⟨by decide, ?_⟩
  exact (c2_dependency_resolution [t] (fun _ => [":n"])).1.mpr (by decide)

/-- Helper: `os.path.split` on a path of the form `x ++ "/" ++ b` where
the basename `b` is slash-free and `x` does not end in a slash splits into
head `x` and tail `b`. -/
theorem osSplit_app (p : String) (x b : List Char) (hp : p.data = x ++ '/' :: b)
    (hb : ∀ c ∈ b, c ≠ '/')
    (hx : ∃ c l', x.reverse = c :: l' ∧ c ≠ '/') :
    Mach.osSplit p = (String.mk x, String.mk b) := by
  obtain ⟨c, l', hxr, hc⟩ := hx
  have hrev : p.data.reverse = b.reverse ++ '/' :: x.reverse := by
    rw [hp]; simp
  have hpre : ∀ ch ∈ b.reverse, decide (ch ≠ '/') = true := by
    intro ch hch
    have := hb ch (List.mem_reverse.mp hch)
    simpa using this
  have htake : (b.reverse ++ '/' :: x.reverse).takeWhile (fun ch => ch ≠ '/')
      = b.reverse := by
    rw [List.takeWhile_append_of_pos hpre]
    simp [List.takeWhile_cons]
  have hdrop : (b.reverse ++ '/' :: x.reverse).dropWhile (fun ch => ch ≠ '/')
      = '/' :: x.reverse := by
    rw [List.dropWhile_append_of_pos hpre]
    simp [List.dropWhile_cons]
  have hall : (('/' :: x.reverse).all fun ch => ch = '/') = false := by
    rw [hxr]
    simp only [List.all_cons, Bool.and_eq_false_iff]
    right; left
    simpa using hc
  have hdrop2 : ('/' :: x.reverse).dropWhile (fun ch => ch = '/') = x.reverse := by
    rw [List.dropWhile_cons]
    simp only [decide_eq_true_eq, if_pos rfl]
    rw [hxr, List.dropWhile_cons]
    simp [hc]
  simp only [Mach.osSplit, hrev, htake, hdrop, hall, hdrop2]
  simp [List.reverse_reverse]

/-- Helper: one unfolding of the `_find_namespace` loop when fuel remains. -/
theorem findNamespaceLoop_step (fuel : Nat) (path head folder : String)
    (components : List String) (h : fuel ≠ 0)
    (hsplit : Mach.osSplit path = (head, folder)) :
    Mach.findNamespaceLoop fuel path components =
      if head = "" then components ++ [folder]
      else Mach.findNamespaceLoop (fuel - 1) head (components ++ [folder]) := by
  cases fuel with
  | zero => exact absurd rfl h
  | succ n =>
    simp only [Mach.findNamespaceLoop, hsplit]
    rfl

/-- **C4.** Namespace derivation: a target whose manifest sits at the scan
root (directory `"."`) gets the empty namespace; a target whose manifest
sits two directories below the scan root (directory `"./a/b"` for folder
names `a` and `b`, each non-empty, slash-free and distinct from the
current-directory marker `"."`) gets namespace `a ++ "." ++ b` — the two
folder names joined root-to-leaf with the separator, the marker elided. -/
theorem c4_namespace_derivation (a b : String)
    (ha : a.data ≠ []) (ha2 : a ≠ ".") (has : ∀ c ∈ a.data, c ≠ '/')
    (hb : b.data ≠ []) (hb2 : b ≠ ".") (hbs : ∀ c ∈ b.data, c ≠ '/') :
    Mach.findNamespace "." = "" ∧
    Mach.findNamespace ("./" ++ a ++ "/" ++ b) = a ++ "." ++ b := by
  refine ⟨rfl, ?_⟩
  obtain ⟨c, l', hcl⟩ : ∃ c l', a.data.reverse = c :: l' := by
    cases hrv : a.data.reverse with
    | nil => exact absurd (by simpa using congrArg List.reverse hrv) (by simpa using ha)
    | cons c l' => exact ⟨c, l', rfl⟩
  have hclast : c ∈ a.data := by
    rw [← List.mem_reverse, hcl]; exact List.mem_cons_self _ _
  have hsplit1 : Mach.osSplit ("./" ++ a ++ "/" ++ b) = ("./" ++ a, b) := by
    have := osSplit_app ("./" ++ a ++ "/" ++ b) ('.' :: '/' :: a.data) b.data
      (by simp [String.data_append])
      hbs
      (⟨c, l' ++ ['/', '.'], by rw [show ('.' :: '/' :: a.data).reverse
          = a.data.reverse ++ ['/', '.'] from by simp, hcl]; rfl,
        has c hclast⟩)
    exact this
  have hsplit2 : Mach.osSplit ("./" ++ a) = (".", a) := by
    have := osSplit_app ("./" ++ a) ['.'] a.data
      (by simp [String.data_append])
      has
      (⟨'.', [], rfl, by decide⟩)
    exact this
  have hsplit3 : Mach.osSplit "." = ("", ".") := by rfl
  have hlen : ("./" ++ a ++ "/" ++ b).length = a.length + b.length + 3 := by
    have h1 : ("./" : String).length = 2 := rfl
    have h2 : ("/" : String).length = 1 := rfl
    simp [String.length_append, h1, h2]
    omega
  have hapos : 0 < a.length := List.length_pos.mpr ha
  have hbpos : 0 < b.length := List.length_pos.mpr hb
  have hne1 : ("./" ++ a) ≠ "" := by
    intro h
    have := congrArg String.data h
    simp [String.data_append] at this
  unfold Mach.findNamespace
  rw [findNamespaceLoop_step _ _ _ _ _ (by omega) hsplit1]
  rw [if_neg hne1]
  rw [findNamespaceLoop_step _ _ _ _ _ (by omega) hsplit2]
  rw [if_neg (by decide : ("." : String) ≠ "")]
  rw [findNamespaceLoop_step _ _ _ _ _ (by omega) hsplit3]
  rw [if_pos rfl]
  simp only [List.nil_append, List.cons_append, List.reverse_cons, List.reverse_nil]
  have hfilter : ([".", a, b] : List String).filter (fun element => element ≠ ".")
      = [a, b] := by
    simp [List.filter, ha2, hb2]
  calc Mach.strJoin "." ((([] ++ [b] ++ [a] ++ ["."]).reverse).filter
        (fun element => element ≠ "."))
      = Mach.strJoin "." ([".", a, b].filter (fun element => element ≠ ".")) := by
        norm_num
    _ = Mach.strJoin "." [a, b] := by rw [hfilter]
    _ = a ++ "." ++ b := rfl

/-- Witness for C4 with the concrete folder names `"aa"` and `"bb"`. -/
theorem c4_namespace_derivation_witness :
    (("aa" : String).data ≠ [] ∧ ("aa" : String) ≠ "." ∧
     (∀ c ∈ ("aa" : String).data, c ≠ '/') ∧
     ("bb" : String).data ≠ [] ∧ ("bb" : String) ≠ "." ∧
     (∀ c ∈ ("bb" : String).data, c ≠ '/')) ∧
    (Mach.findNamespace "." = "" ∧
     Mach.findNamespace ("./" ++ "aa" ++ "/" ++ "bb") = "aa" ++ "." ++ "bb") :=
  ⟨⟨by decide, by decide, by decide, by decide, by decide, by decide⟩,
   c4_namespace_derivation "aa" "bb" (by decide) (by decide) (by decide)
     (by decide) (by decide) (by decide)⟩
